import Mathlib

/-!
Verification development for the copy-trading automation core
(`src/automation/scheduler.py` and `src/automation/tasks.py`).

Embedding conventions:
* Numeric values that the Python code holds as floats (prices, sizes,
  backoff durations, timestamps) are embedded as rationals `ℚ`; the
  properties under study are about the arithmetic formulas, not about
  binary rounding.
* JSON dictionaries that may lack a key (`exposures`, `seen_events`)
  are embedded as `Option`-valued fields so that `dict.setdefault`
  mutations are observable.  A missing `checkpoint` key is equivalent
  to `0` because every read uses `state.get("checkpoint", 0.0)`, so it
  is embedded as a plain rational.
* Python dicts are embedded as insertion-ordered association lists,
  the order in which `sorted(seen.items(), ...)` and pruning see them.
* `str.upper` / `str.lower` on the ASCII strings of this domain are
  embedded character-wise (`Char.toUpper` / `Char.toLower`).
* External collaborators (browser, Polymarket pages) appear only
  through their observable effects: the Event Source's per-cycle yield
  (a list of trades, or a raised error) and the current wall-clock time
  are inputs of each cycle, packaged in `Env`.
-/

namespace CopyBot

/-- ASCII upper-casing, the embedding of Python `str.upper()`. -/
def pyUpper (s : String) : String := ⟨s.data.map Char.toUpper⟩

/-- ASCII lower-casing, the embedding of Python `str.lower()`. -/
def pyLower (s : String) : String := ⟨s.data.map Char.toLower⟩

/-- Association-list lookup with a default, the embedding of
`d.get(k, dflt)` on a Python dict. -/
def lookupD : List (String × α) → String → α → α
  | [], _, dflt => dflt
  | kv :: rest, k, dflt => if kv.1 = k then kv.2 else lookupD rest k dflt

/-- Insert-or-update, the embedding of `d[k] = v` on a Python dict:
an existing key keeps its position, a new key is appended. -/
def dictSet : List (String × α) → String → α → List (String × α)
  | [], k, v => [(k, v)]
  | kv :: rest, k, v => if kv.1 = k then (k, v) :: rest else kv :: dictSet rest k v

/-- Key membership, the embedding of `k in d` on a Python dict. -/
def hasKey : List (String × α) → String → Bool
  | [], _ => false
  | kv :: rest, k => kv.1 = k || hasKey rest k

/-- Normalized leader trade event (`LeaderTrade` dataclass in tasks.py). -/
structure LeaderTrade where
  leader_wallet : String
  event_id : String
  market_id : String
  market_title : String
  side : String
  outcome : String
  price : ℚ
  size : ℚ
  ts : ℚ
  deriving Repr, DecidableEq

/-- Risk-gate decision (`ExecutionDecision` dataclass in tasks.py). -/
structure ExecutionDecision where
  allow : Bool
  reason : String
  copy_size : ℚ
  limit_price : ℚ
  mode : String
  deriving Repr, DecidableEq

/-- Minimal per-key record stored in the seen-events ledger
(the dict value written by `_record_seen`). -/
structure SeenRecord where
  leader_wallet : String
  market_id : String
  side : String
  ts : ℚ
  deriving Repr, DecidableEq

/-- The `exposures` sub-dictionary of the persisted state:
`{"markets": {...}, "categories": {...}}`. -/
structure Exposures where
  markets : List (String × ℚ)
  categories : List (String × ℚ)
  deriving Repr, DecidableEq

/-- The zero-valued exposures dictionary `{"markets": {}, "categories": {}}`. -/
def emptyExposures : Exposures := ⟨[], []⟩

/-- The mutable task state: the JSON dictionary `self.state` plus the
relevant instance fields of `CopyTradingTask`.  `failures` embeds
`self._circuit_breaker_failures`; `pageInit` embeds whether `self.page`
has been set by `start()`. -/
structure TaskState where
  checkpoint : ℚ
  seenEvents : Option (List (String × SeenRecord))
  exposures : Option Exposures
  failures : Nat
  pageInit : Bool
  deriving Repr, DecidableEq

/-- Configuration of `cfg["copy_mode"]`, defaults applied at access. -/
structure CopyCfg where
  mode : String
  fixed_amount : ℚ
  leader_unit : ℚ
  follower_unit : ℚ
  deriving Repr, DecidableEq

/-- Configuration of `cfg["risk"]` with the code's per-access defaults.
`min_liquidity` and `max_spread` are read by the source but never used
in any decision, so they are omitted. -/
structure RiskCfg where
  per_market : ℚ
  per_category : ℚ
  max_slippage : ℚ
  mirror_exits : Bool
  deriving Repr, DecidableEq

/-- Configuration of `cfg["runtime"]` with the code's per-access
defaults (`circuit_breaker_pause_seconds` only feeds a sleep and is
omitted). -/
structure RuntimeCfg where
  demo_mode : Bool
  strict_market_checks : Bool
  max_seen_events : Nat
  circuit_breaker_failures : Nat
  deriving Repr, DecidableEq

/-- The configuration slice the task reads. -/
structure Cfg where
  copy_mode : CopyCfg
  risk : RiskCfg
  runtime : RuntimeCfg
  market_categories : List (String × String)
  deriving Repr, DecidableEq

/-- `CopyTradingTask._compute_copy_size`: fixed mode returns the
configured amount; any other mode is proportional:
`max(0, size * (follower_unit / max(leader_unit, 1e-9)))`. -/
def computeCopySize (cfg : Cfg) (trade : LeaderTrade) : ℚ :=
  if pyLower cfg.copy_mode.mode = "fixed" then
    cfg.copy_mode.fixed_amount
  else
    max 0 (trade.size * (cfg.copy_mode.follower_unit / max cfg.copy_mode.leader_unit (1 / 1000000000)))

/-- `CopyTradingTask._compute_limit_price`: slippage cap around the
observed price, clamped into (0, 1). -/
def computeLimitPrice (cfg : Cfg) (trade : LeaderTrade) : ℚ :=
  if pyUpper trade.side = "BUY" then
    min (999 / 1000) (trade.price + cfg.risk.max_slippage)
  else
    max (1 / 1000) (trade.price - cfg.risk.max_slippage)

/-- `CopyTradingTask._check_liquidity_and_slippage`: rejects when
`strict_market_checks` is enabled, accepts otherwise (the real market
checks are unimplemented placeholders in the source). -/
def checkLiquidityAndSlippage (cfg : Cfg) : Bool × String :=
  if cfg.runtime.strict_market_checks then
    (false, "Market checks not implemented (strict_market_checks enabled)")
  else
    (true, "OK")

/-- The static market-to-category resolution used by the exposure code:
`cfg.get("market_categories", {}).get(market_id, "uncategorized")`. -/
def categoryOf (cfg : Cfg) (marketId : String) : String :=
  lookupD cfg.market_categories marketId "uncategorized"

/-- `self.state.setdefault("exposures", {"markets": {}, "categories": {}})`:
returns the exposures dict and the (possibly mutated) state. -/
def setdefaultExposures (st : TaskState) : Exposures × TaskState :=
  match st.exposures with
  | some e => (e, st)
  | none => (emptyExposures, { st with exposures := some emptyExposures })

/-- Exposure value read for a market: the per-target accumulator. -/
def marketExposure (st : TaskState) (marketId : String) : ℚ :=
  lookupD (st.exposures.getD emptyExposures).markets marketId 0

/-- Exposure value read for a category: the per-category accumulator. -/
def categoryExposure (st : TaskState) (category : String) : ℚ :=
  lookupD (st.exposures.getD emptyExposures).categories category 0

/-- `CopyTradingTask._within_exposure_limits`: false when the market's
accumulator is at or above the per-market cap, or the category's
accumulator is at or above the per-category cap.  The `setdefault`
call makes this return a possibly-mutated state. -/
def withinExposureLimits (cfg : Cfg) (st : TaskState) (trade : LeaderTrade) : Bool × TaskState :=
  let pair := setdefaultExposures st
  let exposures := pair.1
  let st := pair.2
  let market_exposure := lookupD exposures.markets trade.market_id 0
  if cfg.risk.per_market ≤ market_exposure then (false, st)
  else
    let category := categoryOf cfg trade.market_id
    let category_exposure := lookupD exposures.categories category 0
    if cfg.risk.per_category ≤ category_exposure then (false, st)
    else (true, st)

/-- `CopyTradingTask._evaluate_trade`: the risk gate.  Checks run in
order (exposure, liquidity, size), short-circuiting on the first
failure with a zero-valued deny decision; on success returns the
computed size, limit price and exit mode. -/
def evaluateTrade (cfg : Cfg) (st : TaskState) (trade : LeaderTrade) : ExecutionDecision × TaskState :=
  let pair := withinExposureLimits cfg st trade
  let st := pair.2
  if pair.1 = false then (⟨false, "Exposure limit reached", 0, 0, "MIRROR"⟩, st)
  else
    let liq := checkLiquidityAndSlippage cfg
    if liq.1 = false then (⟨false, liq.2, 0, 0, "MIRROR"⟩, st)
    else
      let copy_size := computeCopySize cfg trade
      if copy_size ≤ 0 then (⟨false, "Computed copy size is zero", 0, 0, "MIRROR"⟩, st)
      else
        let limit_price := computeLimitPrice cfg trade
        let mode := if cfg.risk.mirror_exits then "MIRROR" else "INDEPENDENT"
        (⟨true, "OK", copy_size, limit_price, mode⟩, st)

/-- `CopyTradingTask._apply_exposure`: adds `amount` to the market's
and the category's accumulators. -/
def applyExposure (cfg : Cfg) (st : TaskState) (trade : LeaderTrade) (amount : ℚ) : TaskState :=
  let pair := setdefaultExposures st
  let exposures := pair.1
  let st := pair.2
  let markets := dictSet exposures.markets trade.market_id
    (lookupD exposures.markets trade.market_id 0 + amount)
  let category := categoryOf cfg trade.market_id
  let categories := dictSet exposures.categories category
    (lookupD exposures.categories category 0 + amount)
  { st with exposures := some ⟨markets, categories⟩ }

/-- The seen-events ledger as read by the code
(`state.setdefault("seen_events", {})`). -/
def seenList (st : TaskState) : List (String × SeenRecord) :=
  st.seenEvents.getD []

/-- Keys of the seen-events ledger. -/
def seenKeys (st : TaskState) : List String :=
  (seenList st).map Prod.fst

/-- Size of the seen-events ledger (`len(seen)`). -/
def seenSize (st : TaskState) : Nat :=
  (seenList st).length

/-- `CopyTradingTask._is_duplicate`: key membership in the ledger; the
`setdefault` call makes this return a possibly-mutated state. -/
def isDuplicate (st : TaskState) (trade : LeaderTrade) : Bool × TaskState :=
  let seen := seenList st
  (hasKey seen trade.event_id, { st with seenEvents := some seen })

/-- Stable insertion of one entry into a ledger segment sorted by
ascending timestamp: the new entry goes after strictly older entries
and before equal-timestamp ones, matching Python's stable `sorted`. -/
def insertByTs (x : String × SeenRecord) : List (String × SeenRecord) → List (String × SeenRecord)
  | [] => [x]
  | y :: ys => if y.2.ts < x.2.ts then y :: insertByTs x ys else x :: y :: ys

/-- Stable ascending sort by timestamp, the embedding of
`sorted(seen.items(), key=lambda kv: kv[1].get("ts", 0.0))`. -/
def sortByTs : List (String × SeenRecord) → List (String × SeenRecord)
  | [] => []
  | x :: xs => insertByTs x (sortByTs xs)

/-- `CopyTradingTask._record_seen`: insert the minimal record under the
event's idempotency key, then prune the oldest entries by timestamp
while the ledger exceeds `max_seen_events`. -/
def recordSeen (cfg : Cfg) (st : TaskState) (trade : LeaderTrade) : TaskState :=
  let seen := seenList st
  let seen := dictSet seen trade.event_id
    ⟨trade.leader_wallet, trade.market_id, trade.side, trade.ts⟩
  if cfg.runtime.max_seen_events < seen.length then
    let victims := (sortByTs seen).take (seen.length - cfg.runtime.max_seen_events)
    { st with seenEvents := some (seen.filter (fun kv => hasKey victims kv.1 = false)) }
  else
    { st with seenEvents := some seen }

/-- `CopyTradingTask._place_copy_order`: in demo mode the order always
"fills" and exposure is applied; otherwise placement is unimplemented
and the order always fails with the state untouched.  The details dict
(latency, order id, note) carries no decision-relevant data and is
omitted. -/
def placeCopyOrder (cfg : Cfg) (st : TaskState) (trade : LeaderTrade)
    (decision : ExecutionDecision) : Bool × TaskState :=
  if cfg.runtime.demo_mode then
    (true, applyExposure cfg st trade decision.copy_size)
  else
    (false, st)

/-- One structured record appended per processed event
(`_append_result` / `_append_report_row`); the audit row carries the
same data flattened, so one record type stands for both sinks. -/
structure Outcome where
  trade : LeaderTrade
  decision : ExecutionDecision
  status : String
  deriving Repr, DecidableEq

/-- The body of the per-trade `for` loop inside `step()` (tasks.py
lines 154–173): skip duplicates; evaluate; record-seen; record SKIPPED
on deny, else place the order and record FILLED/FAILED.  The
accumulator carries the task state, the outcome records appended so
far, and the keys that reached risk evaluation. -/
def processTrade (cfg : Cfg) (acc : TaskState × List Outcome × List String)
    (trade : LeaderTrade) : TaskState × List Outcome × List String :=
  let st := acc.1
  let outs := acc.2.1
  let evals := acc.2.2
  let dup := isDuplicate st trade
  if dup.1 then (dup.2, outs, evals)
  else
    let st := dup.2
    let ev := evaluateTrade cfg st trade
    let decision := ev.1
    let st := ev.2
    let evals := evals ++ [trade.event_id]
    let st := recordSeen cfg st trade
    if decision.allow = false then
      (st, outs ++ [⟨trade, decision, "SKIPPED"⟩], evals)
    else
      let placed := placeCopyOrder cfg st trade decision
      (placed.2, outs ++ [⟨trade, decision, if placed.1 then "FILLED" else "FAILED"⟩], evals)

/-- The whole per-cycle trade loop: left fold of `processTrade` over
the delivered trades. -/
def processLoop (cfg : Cfg) (trades : List LeaderTrade)
    (acc : TaskState × List Outcome × List String) : TaskState × List Outcome × List String :=
  trades.foldl (processTrade cfg) acc

/-- Delivery of several cycles' worth of trades to the per-cycle loop,
one list per cycle, threading the task state across cycles as a single
process lifetime does. -/
def processCycles (cfg : Cfg) : List (List LeaderTrade) →
    TaskState × List Outcome × List String → TaskState × List Outcome × List String
  | [], acc => acc
  | c :: cs, acc => processCycles cfg cs (processLoop cfg c acc)

/-- The per-cycle environment: the wall-clock time `time.time()` and
the outcome of observing the leaders this cycle.  The demo trade
generation in `_discover_new_leader_trades` draws on randomness and,
in the final system, on an external event source; its per-cycle yield
(or raised error) is therefore an input of the cycle. -/
structure Env where
  now : ℚ
  source : Except String (List LeaderTrade)

/-- The checkpoint advancement performed inside
`_discover_new_leader_trades` (tasks.py line 229):
`state["checkpoint"] = max(since_ts, now)`. -/
def advanceCheckpoint (st : TaskState) (candidate : ℚ) : TaskState :=
  { st with checkpoint := max st.checkpoint candidate }

/-- `CopyTradingTask._discover_new_leader_trades`: reads the current
checkpoint, collects this cycle's observed trades (only in demo mode;
otherwise the placeholder yields none), advances the checkpoint
optimistically to `max(checkpoint, now)`, and returns the trades newer
than the old checkpoint.  A raised collaborator error leaves the state
untouched (the raise precedes the checkpoint update). -/
def discoverNewLeaderTrades (cfg : Cfg) (env : Env) (st : TaskState) :
    Except String (List LeaderTrade × TaskState) :=
  match env.source with
  | .error e => .error e
  | .ok raw =>
      let since := st.checkpoint
      let trades := if cfg.runtime.demo_mode then raw else []
      let st := advanceCheckpoint st env.now
      .ok (trades.filter (fun t => since < t.ts), st)

/-- How a `step()` call can raise: the page-initialization assertion
(before the `try` block), or an exception from the pipeline inside the
`try` block. -/
inductive StepErr where
  | assertPage
  | pipeline (msg : String)
  deriving Repr, DecidableEq

/-- Observable result of one `step()` call: the task state afterwards,
the outcome records appended, the keys that reached risk evaluation,
the state snapshot handed to `_persist_state` (if reached), whether
the circuit-breaker cooldown was served, and the exception that
propagated (if any). -/
structure StepOut where
  state : TaskState
  outcomes : List Outcome
  evaluatedKeys : List String
  persisted : Option TaskState
  cooldownSlept : Bool
  raised : Option StepErr
  deriving Repr, DecidableEq

/-- The circuit-breaker gate at the top of `step()` (tasks.py lines
134–141): when the consecutive-failure counter has reached the
threshold, serve the cooldown pause and reset the counter. -/
def breakerGate (cfg : Cfg) (st : TaskState) : Bool × TaskState :=
  if cfg.runtime.circuit_breaker_failures ≤ st.failures then
    (true, { st with failures := 0 })
  else
    (false, st)

/-- `step()` after the breaker gate: the page assertion, then the
`try` block — discovery, early return when no new trades, the trade
loop, and the end-of-cycle persist; any exception inside the `try`
increments the failure counter and re-raises. -/
def stepAfterGate (cfg : Cfg) (env : Env) (st : TaskState) (slept : Bool) : StepOut :=
  if st.pageInit = false then
    ⟨st, [], [], none, slept, some StepErr.assertPage⟩
  else
    match discoverNewLeaderTrades cfg env st with
    | .error e => ⟨{ st with failures := st.failures + 1 }, [], [], none, slept,
        some (StepErr.pipeline e)⟩
    | .ok (trades, st) =>
        if trades = [] then ⟨st, [], [], none, slept, none⟩
        else
          let res := processLoop cfg trades (st, [], [])
          ⟨res.1, res.2.1, res.2.2, some res.1, slept, none⟩

/-- `CopyTradingTask.step`: breaker gate, then the guarded pipeline. -/
def step (cfg : Cfg) (env : Env) (st : TaskState) : StepOut :=
  let gate := breakerGate cfg st
  stepAfterGate cfg env gate.2 gate.1

/-- `CopyTradingTask.stop` always ends with `_persist_state()`: the
shutdown flush hands the full current state to durable storage (the
browser teardown beforehand is external and modelled away). -/
def stopPersist (st : TaskState) : Option TaskState :=
  some st

/-- The calls `Scheduler.run` makes on its task, in order. -/
inductive RunCall where
  | start
  | stepCall (n : Nat)
  | stop
  deriving Repr, DecidableEq

/-- Environment of one `Scheduler.run` execution: whether `start()`
raises, whether the cancel signal is set when iteration `n` begins,
and whether `step()` at iteration `n` raises an uncatchable error
(`except Exception` swallows ordinary step failures into backoff, so
they do not alter the call sequence; a `BaseException` such as task
cancellation propagates out of the loop). -/
structure SchedEnv where
  startFails : Bool
  cancelAt : Nat → Bool
  stepFatal : Nat → Bool

/-- The `while not stop_event.is_set()` loop of `Scheduler.run`,
fuel-bounded: `none` means the fuel ran out before the loop exited
(the execution is not observed to terminate). -/
def schedulerLoop (env : SchedEnv) : Nat → Nat → Option (List RunCall)
  | _, 0 => none
  | n, fuel + 1 =>
      if env.cancelAt n then some []
      else if env.stepFatal n then some [RunCall.stepCall n]
      else
        match schedulerLoop env (n + 1) fuel with
        | none => none
        | some rest => some (RunCall.stepCall n :: rest)

/-- `Scheduler.run(stop_event)`: `await task.start()` first — outside
the `try`/`finally` — then the loop inside `try`, with `task.stop()`
in the `finally` block.  The returned list is the sequence of task
calls of a terminating execution. -/
def schedulerRun (env : SchedEnv) (fuel : Nat) : Option (List RunCall) :=
  if env.startFails then some [RunCall.start]
  else
    match schedulerLoop env 0 fuel with
    | none => none
    | some calls => some (RunCall.start :: calls ++ [RunCall.stop])

/-- The scheduler's backoff update on a failed `step()`
(`scheduler.py` line 35):
`min(max_backoff, backoff * 2 if backoff else 2.0)`. -/
def backoffAfterFailure (cap b : ℚ) : ℚ :=
  min cap (if b = 0 then 2 else b * 2)

/-- The scheduler's per-iteration backoff update (`scheduler.py` lines
30–36): reset to `0` on success, double-and-cap on failure. -/
def schedBackoffUpdate (cap b : ℚ) (failed : Bool) : ℚ :=
  if failed then backoffAfterFailure cap b else 0

/-- Backoff after `n` consecutive failures starting from `0`. -/
def backoffIter (cap : ℚ) : Nat → ℚ
  | 0 => 0
  | n + 1 => backoffAfterFailure cap (backoffIter cap n)


/-! ### Concrete fixtures

Configurations, states and environments used to exercise the theorems
on concrete inputs. -/

/-- Fixed-size demo configuration: `fixed_amount` 5, per-market cap 50,
per-category cap 150, slippage cap 0.02, breaker threshold 8. -/
def cfgA : Cfg :=
  ⟨⟨"fixed", 5, 1, 1⟩, ⟨50, 150, 2 / 100, true⟩, ⟨true, false, 100, 8⟩, []⟩

/-- Proportional configuration: `leader_unit` 1.0, `follower_unit` 0.1. -/
def cfgB : Cfg :=
  ⟨⟨"proportional", 5, 1, 1 / 10⟩, ⟨50, 150, 2 / 100, true⟩, ⟨true, false, 100, 8⟩, []⟩

/-- Tiny-ledger configuration: `max_seen_events` 1 (pruning fires on the
second distinct key) and a per-market cap of 0 (every trade is denied,
keeping the pipeline free of order placement). -/
def cfgC : Cfg :=
  ⟨⟨"fixed", 5, 1, 1⟩, ⟨0, 150, 2 / 100, true⟩, ⟨true, false, 1, 8⟩, []⟩

/-- Low breaker threshold (2) configuration. -/
def cfgD : Cfg :=
  ⟨⟨"fixed", 5, 1, 1⟩, ⟨50, 150, 2 / 100, true⟩, ⟨true, false, 100, 2⟩, []⟩

/-- A BUY trade at price 0.52, size 10 (the demo-mode trade shape). -/
def tradeA : LeaderTrade :=
  ⟨"0xleader", "evt1", "m1", "Demo Market", "BUY", "YES", 52 / 100, 10, 7⟩

/-- A later SELL trade on a second market. -/
def tradeB : LeaderTrade :=
  ⟨"0xleader", "evtB", "m2", "Other Market", "SELL", "NO", 40 / 100, 3, 8⟩

/-- Started task state, checkpoint 5, everything else empty. -/
def stateA : TaskState := ⟨5, some [], some emptyExposures, 0, true⟩

/-- Loaded state lacking the `exposures` entry. -/
def stateB : TaskState := ⟨0, some [], none, 0, true⟩

/-- State whose page was never initialized (`start()` not completed). -/
def stateC : TaskState := ⟨0, some [], some emptyExposures, 0, false⟩

/-- State with the breaker threshold of `cfgD` already reached. -/
def stateD : TaskState := ⟨0, some [], some emptyExposures, 2, true⟩

/-- State whose exposure on market "m1" already sits at the cap 50. -/
def stateE : TaskState := ⟨0, some [], some ⟨[("m1", 50)], []⟩, 0, true⟩

/-- Cycle environment: time 10, no trades observed. -/
def envA : Env := ⟨10, Except.ok []⟩

/-- Cycle environment: time 10, one BUY trade observed. -/
def envB : Env := ⟨10, Except.ok [tradeA]⟩

/-- Cycle environment whose event observation raises. -/
def envC : Env := ⟨10, Except.error "discovery failed"⟩

/-- Scheduler environment whose `start()` raises. -/
def schedEnvA : SchedEnv := ⟨true, fun _ => false, fun _ => false⟩

/-- Scheduler environment: `start()` succeeds, cancel observed at the
top of iteration 2. -/
def schedEnvB : SchedEnv := ⟨false, fun n => decide (2 ≤ n), fun _ => false⟩

/-- Scheduler environment: never cancelled, `step()` raises an
uncatchable error at iteration 1. -/
def schedEnvC : SchedEnv := ⟨false, fun _ => false, fun n => decide (n = 1)⟩

/-! ### Dictionary lemmas -/

lemma lookupD_dictSet_self (l : List (String × α)) (k : String) (v d : α) :
    lookupD (dictSet l k v) k d = v := by
  induction l with
  | nil => simp only [dictSet, lookupD, if_pos rfl, if_true]
  | cons kv rest ih =>
      by_cases h : kv.1 = k
      · simp only [dictSet, if_pos h, lookupD, if_pos rfl, if_true]
      · simp only [dictSet, if_neg h, lookupD, if_neg h, ih]

lemma lookupD_dictSet_ne (l : List (String × α)) (k k' : String) (v d : α)
    (h : k' ≠ k) : lookupD (dictSet l k v) k' d = lookupD l k' d := by
  have hk : ¬ (k : String) = k' := fun hh => h hh.symm
  induction l with
  | nil => simp only [dictSet, lookupD, if_neg hk]
  | cons kv rest ih =>
      by_cases hkv : kv.1 = k
      · simp only [dictSet, if_pos hkv, lookupD, if_neg hk, hkv]
      · simp only [dictSet, if_neg hkv, lookupD]
        by_cases hkv' : kv.1 = k'
        · simp only [if_pos hkv']
        · simp only [if_neg hkv', ih]

lemma hasKey_iff_mem (l : List (String × α)) (k : String) :
    hasKey l k = true ↔ k ∈ l.map Prod.fst := by
  induction l with
  | nil => simp [hasKey]
  | cons kv rest ih =>
      simp only [hasKey, Bool.or_eq_true, decide_eq_true_eq, ih, List.map_cons, List.mem_cons]
      constructor
      · rintro (h | h)
        · exact Or.inl h.symm
        · exact Or.inr h
      · rintro (h | h)
        · exact Or.inl h.symm
        · exact Or.inr h

lemma hasKey_eq_false_iff (l : List (String × α)) (k : String) :
    hasKey l k = false ↔ k ∉ l.map Prod.fst := by
  rw [← hasKey_iff_mem]
  cases hasKey l k <;> simp

lemma dictSet_of_fresh (l : List (String × α)) (k : String) (v : α)
    (h : hasKey l k = false) : dictSet l k v = l ++ [(k, v)] := by
  induction l with
  | nil => simp [dictSet]
  | cons kv rest ih =>
      simp only [hasKey, Bool.or_eq_false_iff, decide_eq_false_iff_not] at h
      simp [dictSet, h.1, ih h.2]

lemma mem_keys_dictSet (l : List (String × α)) (k k' : String) (v : α) :
    k' ∈ (dictSet l k v).map Prod.fst ↔ k' ∈ l.map Prod.fst ∨ k' = k := by
  induction l with
  | nil => simp [dictSet, eq_comm]
  | cons kv rest ih =>
      by_cases h : kv.1 = k
      · subst h
        simp only [dictSet, if_pos rfl, if_true, List.map_cons, List.mem_cons]
        tauto
      · simp only [dictSet, if_neg h, List.map_cons, List.mem_cons, ih]
        tauto

lemma length_dictSet_fresh (l : List (String × α)) (k : String) (v : α)
    (h : hasKey l k = false) : (dictSet l k v).length = l.length + 1 := by
  rw [dictSet_of_fresh l k v h]
  simp

/-! ### State-component lemmas -/

lemma setdefaultExposures_snd (st : TaskState) :
    (setdefaultExposures st).2 =
      { st with exposures := some (st.exposures.getD emptyExposures) } := by
  cases h : st.exposures with
  | none => simp [setdefaultExposures, h]
  | some e =>
      cases st
      simp_all [setdefaultExposures]

lemma setdefaultExposures_fst (st : TaskState) :
    (setdefaultExposures st).1 = st.exposures.getD emptyExposures := by
  cases h : st.exposures <;> simp [setdefaultExposures, h, emptyExposures]

lemma withinExposureLimits_snd (cfg : Cfg) (st : TaskState) (t : LeaderTrade) :
    (withinExposureLimits cfg st t).2 =
      { st with exposures := some (st.exposures.getD emptyExposures) } := by
  simp only [withinExposureLimits, setdefaultExposures_snd]
  split_ifs <;> rfl

lemma evaluateTrade_snd (cfg : Cfg) (st : TaskState) (t : LeaderTrade) :
    (evaluateTrade cfg st t).2 =
      { st with exposures := some (st.exposures.getD emptyExposures) } := by
  simp only [evaluateTrade, withinExposureLimits_snd]
  split_ifs <;> rfl

lemma marketExposure_evaluate (cfg : Cfg) (st : TaskState) (t : LeaderTrade)
    (m : String) : marketExposure (evaluateTrade cfg st t).2 m = marketExposure st m := by
  simp [marketExposure, evaluateTrade_snd]

lemma categoryExposure_evaluate (cfg : Cfg) (st : TaskState) (t : LeaderTrade)
    (c : String) : categoryExposure (evaluateTrade cfg st t).2 c = categoryExposure st c := by
  simp [categoryExposure, evaluateTrade_snd]

lemma seenList_evaluate (cfg : Cfg) (st : TaskState) (t : LeaderTrade) :
    seenList (evaluateTrade cfg st t).2 = seenList st := by
  simp [seenList, evaluateTrade_snd]

lemma exposures_recordSeen (cfg : Cfg) (st : TaskState) (t : LeaderTrade) :
    (recordSeen cfg st t).exposures = st.exposures := by
  simp only [recordSeen]
  split_ifs <;> rfl

lemma exposures_isDuplicate (st : TaskState) (t : LeaderTrade) :
    (isDuplicate st t).2.exposures = st.exposures := rfl

lemma seenList_isDuplicate (st : TaskState) (t : LeaderTrade) :
    seenList (isDuplicate st t).2 = seenList st := by
  simp [isDuplicate, seenList]

lemma seenList_applyExposure (cfg : Cfg) (st : TaskState) (t : LeaderTrade) (a : ℚ) :
    seenList (applyExposure cfg st t a) = seenList st := by
  simp only [applyExposure, setdefaultExposures_snd]
  rfl

lemma seenList_placeCopyOrder (cfg : Cfg) (st : TaskState) (t : LeaderTrade)
    (d : ExecutionDecision) : seenList (placeCopyOrder cfg st t d).2 = seenList st := by
  simp only [placeCopyOrder]
  split_ifs <;> simp [seenList_applyExposure]

lemma marketExposure_applyExposure_self (cfg : Cfg) (st : TaskState)
    (t : LeaderTrade) (a : ℚ) :
    marketExposure (applyExposure cfg st t a) t.market_id =
      marketExposure st t.market_id + a := by
  simp only [applyExposure, setdefaultExposures_snd, setdefaultExposures_fst]
  simp [marketExposure, lookupD_dictSet_self]

lemma marketExposure_applyExposure_other (cfg : Cfg) (st : TaskState)
    (t : LeaderTrade) (a : ℚ) (m : String) (h : m ≠ t.market_id) :
    marketExposure (applyExposure cfg st t a) m = marketExposure st m := by
  simp only [applyExposure, setdefaultExposures_snd, setdefaultExposures_fst]
  simp [marketExposure, lookupD_dictSet_ne _ _ _ _ _ h]

lemma categoryExposure_applyExposure_self (cfg : Cfg) (st : TaskState)
    (t : LeaderTrade) (a : ℚ) :
    categoryExposure (applyExposure cfg st t a) (categoryOf cfg t.market_id) =
      categoryExposure st (categoryOf cfg t.market_id) + a := by
  simp only [applyExposure, setdefaultExposures_snd, setdefaultExposures_fst]
  simp [categoryExposure, lookupD_dictSet_self]

lemma categoryExposure_applyExposure_other (cfg : Cfg) (st : TaskState)
    (t : LeaderTrade) (a : ℚ) (c : String) (h : c ≠ categoryOf cfg t.market_id) :
    categoryExposure (applyExposure cfg st t a) c = categoryExposure st c := by
  simp only [applyExposure, setdefaultExposures_snd, setdefaultExposures_fst]
  simp [categoryExposure, lookupD_dictSet_ne _ _ _ _ _ h]

/-! ### Trade-loop lemmas -/

lemma processTrade_dup (cfg : Cfg) (st : TaskState) (outs : List Outcome)
    (evals : List String) (t : LeaderTrade)
    (h : hasKey (seenList st) t.event_id = true) :
    processTrade cfg (st, outs, evals) t =
      ({ st with seenEvents := some (seenList st) }, outs, evals) := by
  simp only [processTrade, isDuplicate, h, if_true]

lemma seenList_recordSeen_fresh (cfg : Cfg) (st : TaskState) (t : LeaderTrade)
    (h : hasKey (seenList st) t.event_id = false)
    (hcap : seenSize st + 1 ≤ cfg.runtime.max_seen_events) :
    seenList (recordSeen cfg st t) =
      seenList st ++ [(t.event_id, ⟨t.leader_wallet, t.market_id, t.side, t.ts⟩)] := by
  simp only [recordSeen]
  rw [dictSet_of_fresh _ _ _ h]
  have hlen : (seenList st ++
      [(t.event_id, (⟨t.leader_wallet, t.market_id, t.side, t.ts⟩ : SeenRecord))]).length =
      seenSize st + 1 := by
    simp [seenSize]
  rw [if_neg (by rw [hlen]; omega)]
  simp [seenList]

lemma seenSize_eq_of_seenList {st st' : TaskState}
    (h : seenList st' = seenList st) : seenSize st' = seenSize st := by
  simp [seenSize, h]

lemma seenKeys_eq_of_seenList {st st' : TaskState}
    (h : seenList st' = seenList st) : seenKeys st' = seenKeys st := by
  simp [seenKeys, h]

lemma processTrade_fresh (cfg : Cfg) (st : TaskState) (outs : List Outcome)
    (evals : List String) (t : LeaderTrade)
    (h : hasKey (seenList st) t.event_id = false)
    (hcap : seenSize st + 1 ≤ cfg.runtime.max_seen_events) :
    seenList (processTrade cfg (st, outs, evals) t).1 =
      seenList st ++ [(t.event_id, ⟨t.leader_wallet, t.market_id, t.side, t.ts⟩)] ∧
    (processTrade cfg (st, outs, evals) t).2.2 = evals ++ [t.event_id] := by
  simp only [processTrade, isDuplicate, h, Bool.false_eq_true, if_false]
  set st1 : TaskState := { st with seenEvents := some (seenList st) } with hst1
  have hseen1 : seenList st1 = seenList st := by simp [hst1, seenList]
  set st2 : TaskState := (evaluateTrade cfg st1 t).2 with hst2
  have hseen2 : seenList st2 = seenList st := by rw [hst2, seenList_evaluate, hseen1]
  have hrec : seenList (recordSeen cfg st2 t) =
      seenList st ++ [(t.event_id, ⟨t.leader_wallet, t.market_id, t.side, t.ts⟩)] := by
    have hh := seenList_recordSeen_fresh cfg st2 t
      (by rw [hseen2]; exact h)
      (by rw [seenSize_eq_of_seenList hseen2]; exact hcap)
    rw [hseen2] at hh
    exact hh
  split_ifs with hallow h2
  · exact ⟨hrec, rfl⟩
  · exact ⟨(seenList_placeCopyOrder _ _ _ _).trans hrec, rfl⟩
  · exact ⟨(seenList_placeCopyOrder _ _ _ _).trans hrec, rfl⟩

lemma processLoop_spec (cfg : Cfg) (trades : List LeaderTrade) :
    ∀ (st : TaskState) (outs : List Outcome) (evals : List String),
    seenSize st + trades.length ≤ cfg.runtime.max_seen_events →
    (∀ k : String,
      (processLoop cfg trades (st, outs, evals)).2.2.count k =
        evals.count k +
          (if k ∈ seenKeys st then 0
           else if k ∈ trades.map LeaderTrade.event_id then 1 else 0))
    ∧ (∀ k : String, k ∈ seenKeys (processLoop cfg trades (st, outs, evals)).1 ↔
         (k ∈ seenKeys st ∨ k ∈ trades.map LeaderTrade.event_id))
    ∧ seenSize (processLoop cfg trades (st, outs, evals)).1 ≤ seenSize st + trades.length := by
  induction trades with
  | nil =>
      intro st outs evals _
      refine ⟨fun k => ?_, fun k => ?_, ?_⟩ <;> simp [processLoop]
  | cons t rest ih =>
      intro st outs evals hcap
      have hstep : processLoop cfg (t :: rest) (st, outs, evals) =
          processLoop cfg rest (processTrade cfg (st, outs, evals) t) := by
        simp [processLoop]
      by_cases h : hasKey (seenList st) t.event_id = true
      · -- duplicate delivery: skipped before evaluation
        have hmem : t.event_id ∈ seenKeys st := (hasKey_iff_mem _ _).mp h
        rw [hstep, processTrade_dup cfg st outs evals t h]
        set st1 : TaskState := { st with seenEvents := some (seenList st) } with hst1
        have hseen1 : seenList st1 = seenList st := by simp [hst1, seenList]
        have hkeys1 : seenKeys st1 = seenKeys st := seenKeys_eq_of_seenList hseen1
        have hsize1 : seenSize st1 = seenSize st := seenSize_eq_of_seenList hseen1
        have hcap1 : seenSize st1 + rest.length ≤ cfg.runtime.max_seen_events := by
          rw [hsize1]; simp at hcap; omega
        obtain ⟨ihc, ihm, ihs⟩ := ih st1 outs evals hcap1
        refine ⟨fun k => ?_, fun k => ?_, ?_⟩
        · rw [ihc k, hkeys1]
          by_cases hk : k ∈ seenKeys st
          · simp [hk]
          · have hne : ¬ k = t.event_id := fun hh => hk (hh ▸ hmem)
            simp [hk, hne]
        · rw [ihm k, hkeys1, List.map_cons, List.mem_cons]
          constructor
          · rintro (hh | hh)
            · exact Or.inl hh
            · exact Or.inr (Or.inr hh)
          · rintro (hh | hh | hh)
            · exact Or.inl hh
            · exact Or.inl (hh ▸ hmem)
            · exact Or.inr hh
        · rw [hsize1] at ihs
          simpa using Nat.le_trans ihs (by omega)
      · -- fresh delivery: evaluated once and recorded
        have hfalse : hasKey (seenList st) t.event_id = false := by
          cases hh : hasKey (seenList st) t.event_id
          · rfl
          · exact absurd hh h
        have hnotmem : t.event_id ∉ seenKeys st := (hasKey_eq_false_iff _ _).mp hfalse
        have hcap0 : seenSize st + 1 ≤ cfg.runtime.max_seen_events := by
          simp at hcap; omega
        obtain ⟨hseenP, hevalsP⟩ := processTrade_fresh cfg st outs evals t hfalse hcap0
        rw [hstep]
        set acc1 := processTrade cfg (st, outs, evals) t with hacc1
        obtain ⟨st', outs', evals'⟩ := acc1
        simp only at hseenP hevalsP
        have hkeys' : seenKeys st' = seenKeys st ++ [t.event_id] := by
          simp [seenKeys, hseenP]
        have hsize' : seenSize st' = seenSize st + 1 := by
          simp [seenSize, hseenP]
        have hcap' : seenSize st' + rest.length ≤ cfg.runtime.max_seen_events := by
          rw [hsize']; simp at hcap; omega
        obtain ⟨ihc, ihm, ihs⟩ := ih st' outs' evals' hcap'
        refine ⟨fun k => ?_, fun k => ?_, ?_⟩
        · rw [ihc k, hevalsP, hkeys']
          by_cases hk : k = t.event_id
          · subst hk
            simp [hnotmem, List.count_append]
          · have hmem' : k ∈ seenKeys st ++ [t.event_id] ↔ k ∈ seenKeys st := by
              simp [hk]
            rw [List.count_append]
            simp only [hmem']
            have hsingle : List.count k [t.event_id] = 0 := by
              simp [List.count_singleton]
              intro hh
              exact absurd hh.symm hk
            rw [hsingle]
            simp [List.map_cons, hk]
        · rw [ihm k, hkeys', List.map_cons, List.mem_cons]
          simp only [List.mem_append, List.mem_singleton]
          tauto
        · rw [hsize'] at ihs
          simpa using Nat.le_trans ihs (by omega)

lemma processCycles_eq_flatten (cfg : Cfg) (cycles : List (List LeaderTrade)) :
    ∀ acc, processCycles cfg cycles acc = processLoop cfg cycles.flatten acc := by
  induction cycles with
  | nil => intro acc; simp [processCycles, processLoop]
  | cons c cs ih =>
      intro acc
      simp [processCycles, processLoop, ih, List.foldl_append]

/-! ### Step-level lemmas -/

lemma failures_recordSeen (cfg : Cfg) (st : TaskState) (t : LeaderTrade) :
    (recordSeen cfg st t).failures = st.failures := by
  simp only [recordSeen]
  split_ifs <;> rfl

lemma failures_evaluateTrade (cfg : Cfg) (st : TaskState) (t : LeaderTrade) :
    (evaluateTrade cfg st t).2.failures = st.failures := by
  rw [evaluateTrade_snd]

lemma failures_applyExposure (cfg : Cfg) (st : TaskState) (t : LeaderTrade) (a : ℚ) :
    (applyExposure cfg st t a).failures = st.failures := by
  simp only [applyExposure, setdefaultExposures_snd]

lemma failures_placeCopyOrder (cfg : Cfg) (st : TaskState) (t : LeaderTrade)
    (d : ExecutionDecision) : (placeCopyOrder cfg st t d).2.failures = st.failures := by
  simp only [placeCopyOrder]
  split_ifs
  · exact failures_applyExposure cfg st t d.copy_size
  · rfl

lemma failures_processTrade (cfg : Cfg) (acc : TaskState × List Outcome × List String)
    (t : LeaderTrade) : (processTrade cfg acc t).1.failures = acc.1.failures := by
  obtain ⟨st, outs, evals⟩ := acc
  simp only [processTrade]
  split_ifs with h1 h2 h3
  · rfl
  · exact (failures_recordSeen _ _ _).trans ((failures_evaluateTrade _ _ _).trans rfl)
  · exact (failures_placeCopyOrder _ _ _ _).trans
      ((failures_recordSeen _ _ _).trans ((failures_evaluateTrade _ _ _).trans rfl))
  · exact (failures_placeCopyOrder _ _ _ _).trans
      ((failures_recordSeen _ _ _).trans ((failures_evaluateTrade _ _ _).trans rfl))

lemma failures_processLoop (cfg : Cfg) (trades : List LeaderTrade) :
    ∀ acc, (processLoop cfg trades acc).1.failures = acc.1.failures := by
  induction trades with
  | nil => intro acc; rfl
  | cons t rest ih =>
      intro acc
      have hstep : processLoop cfg (t :: rest) acc =
          processLoop cfg rest (processTrade cfg acc t) := by
        simp [processLoop]
      rw [hstep, ih]
      exact failures_processTrade cfg acc t

lemma discover_ok_state (cfg : Cfg) (env : Env) (st : TaskState)
    (trades : List LeaderTrade) (st1 : TaskState)
    (h : discoverNewLeaderTrades cfg env st = Except.ok (trades, st1)) :
    st1 = advanceCheckpoint st env.now := by
  cases hsrc : env.source with
  | error e =>
      simp only [discoverNewLeaderTrades, hsrc] at h
      exact Except.noConfusion h
  | ok raw =>
      simp only [discoverNewLeaderTrades, hsrc, Except.ok.injEq, Prod.mk.injEq] at h
      exact h.2.symm

lemma stepAfterGate_failures (cfg : Cfg) (env : Env) (st : TaskState) (slept : Bool) :
    (∀ e, (stepAfterGate cfg env st slept).raised = some (StepErr.pipeline e) →
      (stepAfterGate cfg env st slept).state.failures = st.failures + 1) ∧
    ((stepAfterGate cfg env st slept).raised = none →
      (stepAfterGate cfg env st slept).state.failures = st.failures) := by
  by_cases hpage : st.pageInit = false
  · have hred : stepAfterGate cfg env st slept =
        ⟨st, [], [], none, slept, some StepErr.assertPage⟩ := by
      simp only [stepAfterGate, if_pos hpage]
    rw [hred]
    exact ⟨fun e he => absurd he (by simp), fun he => absurd he (by simp)⟩
  · cases hdisc : discoverNewLeaderTrades cfg env st with
    | error e0 =>
        have hred : stepAfterGate cfg env st slept =
            ⟨{ st with failures := st.failures + 1 }, [], [], none, slept,
              some (StepErr.pipeline e0)⟩ := by
          simp only [stepAfterGate, if_neg hpage, hdisc]
        rw [hred]
        exact ⟨fun e _ => rfl, fun he => absurd he (by simp)⟩
    | ok pr =>
        obtain ⟨trades, st1⟩ := pr
        have hst1 : st1.failures = st.failures := by
          rw [discover_ok_state cfg env st trades st1 hdisc]
          rfl
        by_cases htr : trades = []
        · have hred : stepAfterGate cfg env st slept =
              ⟨st1, [], [], none, slept, none⟩ := by
            simp only [stepAfterGate, if_neg hpage, hdisc, if_pos htr]
          rw [hred]
          exact ⟨fun e he => absurd he (by simp), fun _ => hst1⟩
        · have hred : stepAfterGate cfg env st slept =
              ⟨(processLoop cfg trades (st1, [], [])).1,
               (processLoop cfg trades (st1, [], [])).2.1,
               (processLoop cfg trades (st1, [], [])).2.2,
               some (processLoop cfg trades (st1, [], [])).1, slept, none⟩ := by
            simp only [stepAfterGate, if_neg hpage, hdisc, if_neg htr]
          rw [hred]
          refine ⟨fun e he => absurd he (by simp), fun _ => ?_⟩
          exact (failures_processLoop cfg trades (st1, [], [])).trans hst1

lemma stepAfterGate_persist (cfg : Cfg) (env : Env) (st : TaskState) (slept : Bool)
    (trades : List LeaderTrade) (st1 : TaskState)
    (hdisc : discoverNewLeaderTrades cfg env st = Except.ok (trades, st1))
    (hraise : (stepAfterGate cfg env st slept).raised = none) :
    (trades ≠ [] → (stepAfterGate cfg env st slept).persisted =
      some (stepAfterGate cfg env st slept).state) ∧
    (trades = [] → (stepAfterGate cfg env st slept).persisted = none ∧
      (stepAfterGate cfg env st slept).state = st1) := by
  by_cases hpage : st.pageInit = false
  · have hbad : (stepAfterGate cfg env st slept).raised = some StepErr.assertPage := by
      simp only [stepAfterGate, if_pos hpage]
    rw [hbad] at hraise
    cases hraise
  · by_cases htr : trades = []
    · have hred : stepAfterGate cfg env st slept =
          ⟨st1, [], [], none, slept, none⟩ := by
        simp only [stepAfterGate, if_neg hpage, hdisc, if_pos htr]
      rw [hred]
      exact ⟨fun h => absurd htr h, fun _ => ⟨rfl, rfl⟩⟩
    · have hred : stepAfterGate cfg env st slept =
          ⟨(processLoop cfg trades (st1, [], [])).1,
           (processLoop cfg trades (st1, [], [])).2.1,
           (processLoop cfg trades (st1, [], [])).2.2,
           some (processLoop cfg trades (st1, [], [])).1, slept, none⟩ := by
        simp only [stepAfterGate, if_neg hpage, hdisc, if_neg htr]
      rw [hred]
      exact ⟨fun _ => rfl, fun h => absurd h htr⟩

lemma schedulerLoop_no_stop (env : SchedEnv) :
    ∀ fuel n cs, schedulerLoop env n fuel = some cs → cs.count RunCall.stop = 0 := by
  intro fuel
  induction fuel with
  | zero => intro n cs h; cases h
  | succ f ih =>
      intro n cs h
      simp only [schedulerLoop] at h
      split_ifs at h with hc hf
      · injection h with h
        subst h
        rfl
      · injection h with h
        subst h
        rfl
      · cases hr : schedulerLoop env (n + 1) f with
        | none => rw [hr] at h; cases h
        | some rest =>
            rw [hr] at h
            injection h with h
            subst h
            simpa [List.count_cons] using ih (n + 1) rest hr


/-! ### Concrete-string evaluation lemmas -/

lemma pyLower_fixed_eq : pyLower "fixed" = "fixed" := by decide

lemma pyLower_proportional_eq : pyLower "proportional" = "proportional" := by decide

lemma pyUpper_buy_eq : pyUpper "BUY" = "BUY" := by decide

lemma pyUpper_sell_eq : pyUpper "SELL" = "SELL" := by decide

/-! ### Risk-gate normal forms -/

lemma withinExposureLimits_fst (cfg : Cfg) (st : TaskState) (t : LeaderTrade) :
    (withinExposureLimits cfg st t).1 =
      (if cfg.risk.per_market ≤ marketExposure st t.market_id then false
       else if cfg.risk.per_category ≤
           categoryExposure st (categoryOf cfg t.market_id) then false
       else true) := by
  simp only [withinExposureLimits, setdefaultExposures_fst, marketExposure,
    categoryExposure]
  split_ifs <;> rfl

lemma evaluateTrade_fst (cfg : Cfg) (st : TaskState) (t : LeaderTrade) :
    (evaluateTrade cfg st t).1 =
      (if (withinExposureLimits cfg st t).1 = false then
        ⟨false, "Exposure limit reached", 0, 0, "MIRROR"⟩
       else if (checkLiquidityAndSlippage cfg).1 = false then
        ⟨false, (checkLiquidityAndSlippage cfg).2, 0, 0, "MIRROR"⟩
       else if computeCopySize cfg t ≤ 0 then
        ⟨false, "Computed copy size is zero", 0, 0, "MIRROR"⟩
       else
        ⟨true, "OK", computeCopySize cfg t, computeLimitPrice cfg t,
          if cfg.risk.mirror_exits then "MIRROR" else "INDEPENDENT"⟩) := by
  simp only [evaluateTrade]
  split_ifs <;> rfl

lemma marketExposure_congr {st st' : TaskState} (h : st'.exposures = st.exposures)
    (m : String) : marketExposure st' m = marketExposure st m := by
  simp [marketExposure, h]

lemma categoryExposure_congr {st st' : TaskState} (h : st'.exposures = st.exposures)
    (c : String) : categoryExposure st' c = categoryExposure st c := by
  simp [categoryExposure, h]

lemma withinExposureLimits_fst_congr {st st' : TaskState} (cfg : Cfg) (t : LeaderTrade)
    (h : st'.exposures = st.exposures) :
    (withinExposureLimits cfg st' t).1 = (withinExposureLimits cfg st t).1 := by
  rw [withinExposureLimits_fst, withinExposureLimits_fst,
    marketExposure_congr h, categoryExposure_congr h]

lemma evaluateTrade_fst_congr {st st' : TaskState} (cfg : Cfg) (t : LeaderTrade)
    (h : st'.exposures = st.exposures) :
    (evaluateTrade cfg st' t).1 = (evaluateTrade cfg st t).1 := by
  rw [evaluateTrade_fst, evaluateTrade_fst, withinExposureLimits_fst_congr cfg t h]

/-! ### Claim theorems -/

/-- C8: the computed size equals the configured fixed amount in fixed
mode (independently of the leader/follower units) and equals
`max 0 (observedSize * (followerUnit / max leaderUnit ε))` with
`ε = 10⁻⁹` in proportional mode; the computed limit price equals
`min 0.999 (observedPrice + cap)` for a buy-direction event and
`max 0.001 (observedPrice - cap)` otherwise. -/
theorem c8_size_and_price_formulas (cfg : Cfg) (t : LeaderTrade) :
    (pyLower cfg.copy_mode.mode = "fixed" →
      computeCopySize cfg t = cfg.copy_mode.fixed_amount) ∧
    (pyLower cfg.copy_mode.mode = "proportional" →
      computeCopySize cfg t =
        max 0 (t.size * (cfg.copy_mode.follower_unit /
          max cfg.copy_mode.leader_unit (1 / 1000000000)))) ∧
    (pyUpper t.side = "BUY" →
      computeLimitPrice cfg t = min (999 / 1000) (t.price + cfg.risk.max_slippage)) ∧
    (pyUpper t.side ≠ "BUY" →
      computeLimitPrice cfg t = max (1 / 1000) (t.price - cfg.risk.max_slippage)) := by
  refine ⟨?_, ?_, ?_, ?_⟩ <;> intro h
  · simp [computeCopySize, h]
  · rw [computeCopySize, if_neg (by rw [h]; decide)]
  · simp [computeLimitPrice, h]
  · simp [computeLimitPrice, h]

/-- C8 witness: fixedAmount 5 with observed size 10 gives 5; leader
unit 1.0, follower unit 0.1 and size 10 give 1.0; a buy at 0.52 with
cap 0.02 gives 0.54. -/
theorem c8_size_and_price_witness :
    computeCopySize cfgA tradeA = 5 ∧
    computeCopySize cfgB tradeA = 1 ∧
    computeLimitPrice cfgA tradeA = 54 / 100 := by
  refine ⟨?_, ?_, ?_⟩
  · exact (c8_size_and_price_formulas cfgA tradeA).1 (by decide)
  · rw [(c8_size_and_price_formulas cfgB tradeA).2.1 (by decide)]
    norm_num [cfgB, tradeA]
  · rw [(c8_size_and_price_formulas cfgA tradeA).2.2.1 (by decide)]
    norm_num [cfgA, tradeA]

/-- C9: advancing the checkpoint stores `max current candidate`, never
decreases it, remains monotone under any sequence of advancements, and
is exactly the update the discovery step performs (which then filters
by the old checkpoint). -/
theorem c9_checkpoint_monotone (st : TaskState) (c : ℚ) (cs : List ℚ)
    (cfg : Cfg) (now : ℚ) (raw : List LeaderTrade) :
    ((advanceCheckpoint st c).checkpoint = max st.checkpoint c) ∧
    (st.checkpoint ≤ (advanceCheckpoint st c).checkpoint) ∧
    (st.checkpoint ≤ (cs.foldl advanceCheckpoint st).checkpoint) ∧
    (discoverNewLeaderTrades cfg ⟨now, Except.ok raw⟩ st =
      Except.ok ((if cfg.runtime.demo_mode then raw else []).filter
        (fun t => st.checkpoint < t.ts), advanceCheckpoint st now)) := by
  refine ⟨rfl, le_max_left _ _, ?_, rfl⟩
  induction cs generalizing st with
  | nil => simp
  | cons c0 rest ih =>
      rw [List.foldl_cons]
      exact le_trans (le_max_left _ _) (ih (advanceCheckpoint st c0))

/-- C10 (amended): the risk gate leaves the state unchanged except
that, through `dict.setdefault`, a missing `exposures` entry is
replaced by the zero-valued default; all exposure values, the
seen-events ledger, the checkpoint and the failure counter are
untouched, and no exposure value is ever written by evaluation. -/
theorem c10_evaluate_frame_amended (cfg : Cfg) (st : TaskState) (t : LeaderTrade) :
    ((evaluateTrade cfg st t).2 =
      { st with exposures := some (st.exposures.getD emptyExposures) }) ∧
    (∀ m, marketExposure (evaluateTrade cfg st t).2 m = marketExposure st m) ∧
    (∀ c, categoryExposure (evaluateTrade cfg st t).2 c = categoryExposure st c) ∧
    (seenList (evaluateTrade cfg st t).2 = seenList st) ∧
    ((evaluateTrade cfg st t).2.checkpoint = st.checkpoint) ∧
    ((evaluateTrade cfg st t).2.failures = st.failures) := by
  refine ⟨evaluateTrade_snd cfg st t, marketExposure_evaluate cfg st t,
    categoryExposure_evaluate cfg st t, seenList_evaluate cfg st t, ?_, ?_⟩
  · rw [evaluateTrade_snd]
  · rw [evaluateTrade_snd]

/-- C10 counterexample: on a loaded state lacking the `exposures`
entry, evaluation mutates the state (the entry is inserted), so the
state after `evaluate` differs from the state before. -/
theorem c10_setdefault_mutates :
    stateB.exposures = none ∧
    (evaluateTrade cfgA stateB tradeA).2.exposures = some emptyExposures ∧
    (evaluateTrade cfgA stateB tradeA).2 ≠ stateB := by
  have h2 : (evaluateTrade cfgA stateB tradeA).2.exposures = some emptyExposures := by
    rw [evaluateTrade_snd]
    rfl
  refine ⟨rfl, h2, fun h => ?_⟩
  rw [h] at h2
  exact Option.noConfusion h2

/-- C6: a successful step resets the backoff to 0; a failed step sets
it to `min cap (2 b)` with seed 2 when the previous backoff was 0; and
`n + 1` consecutive failures from backoff 0 produce
`min cap (2 ^ (n + 1))`, i.e. the sequence 2, 4, 8, ..., cap. -/
theorem c6_backoff_doubling (cap b : ℚ) (n : Nat) (hcap : 0 ≤ cap) :
    (schedBackoffUpdate cap b false = 0) ∧
    (schedBackoffUpdate cap b true = min cap (if b = 0 then 2 else b * 2)) ∧
    (backoffIter cap (n + 1) = min cap (2 ^ (n + 1))) := by
  refine ⟨rfl, rfl, ?_⟩
  induction n with
  | zero => simp [backoffIter, backoffAfterFailure]
  | succ m ih =>
      rw [backoffIter, ih, backoffAfterFailure]
      have hpow : (0 : ℚ) < 2 ^ (m + 1) := by positivity
      have hpow2 : ((2 : ℚ) ^ (m + 1)) * 2 = 2 ^ (m + 2) := by ring
      by_cases h0 : min cap ((2 : ℚ) ^ (m + 1)) = 0
      · have hcap0 : cap = 0 := by
          rcases le_total cap ((2 : ℚ) ^ (m + 1)) with hle | hle
          · rw [min_eq_left hle] at h0; exact h0
          · rw [min_eq_right hle] at h0; linarith
        rw [if_pos h0, hcap0]
        rw [min_eq_left (by norm_num), min_eq_left (by positivity)]
      · rw [if_neg h0]
        rcases le_total cap ((2 : ℚ) ^ (m + 1)) with hle | hle
        · have hc0 : 0 < cap := by
            rcases lt_or_eq_of_le hcap with hlt | heq
            · exact hlt
            · exfalso; exact h0 (by rw [min_eq_left hle, ← heq])
          rw [min_eq_left hle]
          rw [min_eq_left (by linarith), min_eq_left (by nlinarith)]
        · rw [min_eq_right hle, hpow2]

/-- C6 witness: with cap 60, eight consecutive failures from 0 give
`min 60 (2^7) = 60`, and a success resets to 0. -/
theorem c6_backoff_doubling_witness :
    (schedBackoffUpdate 60 8 false = 0) ∧
    (schedBackoffUpdate 60 8 true = min 60 (if (8 : ℚ) = 0 then 2 else 8 * 2)) ∧
    (backoffIter 60 (6 + 1) = min 60 (2 ^ (6 + 1))) :=
  c6_backoff_doubling 60 8 6 (by norm_num)


/-- C7: the risk gate allows only when the exposure, liquidity and
size checks all pass, in that order; the first failing check yields a
deny decision carrying that check's reason with zero size and limit
price; in particular a target at or above its per-market cap is always
denied with reason "Exposure limit reached". -/
theorem c7_risk_gate_order (cfg : Cfg) (st : TaskState) (t : LeaderTrade) :
    ((evaluateTrade cfg st t).1.allow = true ↔
      ((withinExposureLimits cfg st t).1 = true ∧
       (checkLiquidityAndSlippage cfg).1 = true ∧
       0 < computeCopySize cfg t)) ∧
    ((withinExposureLimits cfg st t).1 = false →
      (evaluateTrade cfg st t).1 = ⟨false, "Exposure limit reached", 0, 0, "MIRROR"⟩) ∧
    ((withinExposureLimits cfg st t).1 = true →
     (checkLiquidityAndSlippage cfg).1 = false →
      (evaluateTrade cfg st t).1 =
        ⟨false, (checkLiquidityAndSlippage cfg).2, 0, 0, "MIRROR"⟩) ∧
    ((withinExposureLimits cfg st t).1 = true →
     (checkLiquidityAndSlippage cfg).1 = true →
     computeCopySize cfg t ≤ 0 →
      (evaluateTrade cfg st t).1 =
        ⟨false, "Computed copy size is zero", 0, 0, "MIRROR"⟩) ∧
    ((withinExposureLimits cfg st t).1 = true →
     (checkLiquidityAndSlippage cfg).1 = true →
     0 < computeCopySize cfg t →
      (evaluateTrade cfg st t).1 =
        ⟨true, "OK", computeCopySize cfg t, computeLimitPrice cfg t,
          if cfg.risk.mirror_exits then "MIRROR" else "INDEPENDENT"⟩) ∧
    (cfg.risk.per_market ≤ marketExposure st t.market_id →
      (evaluateTrade cfg st t).1 = ⟨false, "Exposure limit reached", 0, 0, "MIRROR"⟩) := by
  have hcap : cfg.risk.per_market ≤ marketExposure st t.market_id →
      (withinExposureLimits cfg st t).1 = false := by
    intro h
    rw [withinExposureLimits_fst, if_pos h]
  rw [evaluateTrade_fst]
  refine ⟨?_, ?_, ?_, ?_, ?_, ?_⟩
  · cases hw : (withinExposureLimits cfg st t).1 <;>
      cases hl : (checkLiquidityAndSlippage cfg).1 <;>
      by_cases hs : computeCopySize cfg t ≤ 0 <;>
      simp [hw, hl, hs, not_le] <;>
      exact not_le.mp hs
  · intro h
    rw [if_pos h]
  · intro hw hl
    rw [if_neg (by simp [hw]), if_pos hl]
  · intro hw hl hs
    rw [if_neg (by simp [hw]), if_neg (by simp [hl]), if_pos hs]
  · intro hw hl hs
    rw [if_neg (by simp [hw]), if_neg (by simp [hl]), if_neg (not_le.mpr hs)]
  · intro h
    rw [if_pos (hcap h)]

/-- C7 witness: with market "m1" already holding exposure 50 against a
per-market cap of 50, the BUY event on "m1" is denied with reason
"Exposure limit reached". -/
theorem c7_risk_gate_order_witness :
    (evaluateTrade cfgA stateE tradeA).1 =
      ⟨false, "Exposure limit reached", 0, 0, "MIRROR"⟩ :=
  (c7_risk_gate_order cfgA stateE tradeA).2.2.2.2.2 (by decide)

/-- C4: processing one non-duplicate event records exactly one
outcome; a FILLED outcome adds the decision's computed size to the
event's per-market and per-category accumulators (and no other entry);
a SKIPPED (denied) or FAILED outcome leaves every exposure value
unchanged. -/
theorem c4_exposure_accounting (cfg : Cfg) (st : TaskState) (t : LeaderTrade)
    (hdup : hasKey (seenList st) t.event_id = false) :
    ((evaluateTrade cfg st t).1.allow = false →
      (processTrade cfg (st, [], []) t).2.1 =
        [⟨t, (evaluateTrade cfg st t).1, "SKIPPED"⟩] ∧
      (∀ m, marketExposure (processTrade cfg (st, [], []) t).1 m = marketExposure st m) ∧
      (∀ c, categoryExposure (processTrade cfg (st, [], []) t).1 c =
        categoryExposure st c)) ∧
    ((evaluateTrade cfg st t).1.allow = true → cfg.runtime.demo_mode = true →
      (processTrade cfg (st, [], []) t).2.1 =
        [⟨t, (evaluateTrade cfg st t).1, "FILLED"⟩] ∧
      marketExposure (processTrade cfg (st, [], []) t).1 t.market_id =
        marketExposure st t.market_id + (evaluateTrade cfg st t).1.copy_size ∧
      categoryExposure (processTrade cfg (st, [], []) t).1 (categoryOf cfg t.market_id) =
        categoryExposure st (categoryOf cfg t.market_id) +
          (evaluateTrade cfg st t).1.copy_size ∧
      (∀ m, m ≠ t.market_id →
        marketExposure (processTrade cfg (st, [], []) t).1 m = marketExposure st m) ∧
      (∀ c, c ≠ categoryOf cfg t.market_id →
        categoryExposure (processTrade cfg (st, [], []) t).1 c = categoryExposure st c)) ∧
    ((evaluateTrade cfg st t).1.allow = true → cfg.runtime.demo_mode = false →
      (processTrade cfg (st, [], []) t).2.1 =
        [⟨t, (evaluateTrade cfg st t).1, "FAILED"⟩] ∧
      (∀ m, marketExposure (processTrade cfg (st, [], []) t).1 m = marketExposure st m) ∧
      (∀ c, categoryExposure (processTrade cfg (st, [], []) t).1 c =
        categoryExposure st c)) := by
  have hst1 : (⟨st.checkpoint, some (seenList st), st.exposures, st.failures,
      st.pageInit⟩ : TaskState).exposures = st.exposures := rfl
  simp only [processTrade, isDuplicate, hdup, Bool.false_eq_true, if_false]
  set st1 : TaskState := { st with seenEvents := some (seenList st) } with hst1def
  have hdec : (evaluateTrade cfg st1 t).1 = (evaluateTrade cfg st t).1 :=
    evaluateTrade_fst_congr cfg t rfl
  set st3 : TaskState := recordSeen cfg (evaluateTrade cfg st1 t).2 t with hst3def
  have hexp3 : st3.exposures = some (st.exposures.getD emptyExposures) := by
    rw [hst3def, exposures_recordSeen, evaluateTrade_snd]
  have hm3 : ∀ m, marketExposure st3 m = marketExposure st m := by
    intro m
    simp [marketExposure, hexp3]
  have hc3 : ∀ c, categoryExposure st3 c = categoryExposure st c := by
    intro c
    simp [categoryExposure, hexp3]
  refine ⟨?_, ?_, ?_⟩
  · intro hallow
    rw [hdec, if_pos (by rw [hallow])]
    exact ⟨rfl, hm3, hc3⟩
  · intro hallow hdemo
    rw [hdec, if_neg (by rw [hallow]; exact fun hh => Bool.noConfusion hh)]
    simp only [placeCopyOrder, hdemo, if_true]
    refine ⟨rfl, ?_, ?_, ?_, ?_⟩
    · rw [marketExposure_applyExposure_self, hm3]
    · rw [categoryExposure_applyExposure_self, hc3]
    · intro m hm
      rw [marketExposure_applyExposure_other _ _ _ _ _ hm, hm3]
    · intro c hc
      rw [categoryExposure_applyExposure_other _ _ _ _ _ hc, hc3]
  · intro hallow hdemo
    rw [hdec, if_neg (by rw [hallow]; exact fun hh => Bool.noConfusion hh)]
    simp only [placeCopyOrder, hdemo, Bool.false_eq_true, if_false]
    exact ⟨rfl, hm3, hc3⟩

/-- C4 witness: in demo mode the BUY event fills and market "m1" and
its category each gain the computed size. -/
theorem c4_exposure_accounting_witness :
    (processTrade cfgA (stateA, [], []) tradeA).2.1 =
      [⟨tradeA, (evaluateTrade cfgA stateA tradeA).1, "FILLED"⟩] ∧
    marketExposure (processTrade cfgA (stateA, [], []) tradeA).1 "m1" =
      marketExposure stateA "m1" + (evaluateTrade cfgA stateA tradeA).1.copy_size := by
  have h := (c4_exposure_accounting cfgA stateA tradeA (by decide)).2.1 (by decide) rfl
  exact ⟨h.1, h.2.1⟩


/-- C5 (amended): at the start of a cycle with the failure counter at
or above the threshold, the cooldown is served and the counter reset
to zero before any event-source interaction (everything after the gate
runs on the reset state); below the threshold the gate is a no-op;
every cycle whose pipeline (the `try` block, from event discovery on)
raises increments the counter by exactly one; a cycle that completes
without exception leaves the (post-gate) counter unchanged.  The
page-initialization assertion, which sits before the `try` block,
raises without incrementing the counter. -/
theorem c5_circuit_breaker_amended (cfg : Cfg) (env : Env) (st : TaskState) :
    (cfg.runtime.circuit_breaker_failures ≤ st.failures →
      step cfg env st = stepAfterGate cfg env { st with failures := 0 } true) ∧
    (st.failures < cfg.runtime.circuit_breaker_failures →
      step cfg env st = stepAfterGate cfg env st false) ∧
    (∀ e, (step cfg env st).raised = some (StepErr.pipeline e) →
      (step cfg env st).state.failures = (breakerGate cfg st).2.failures + 1) ∧
    ((step cfg env st).raised = none →
      (step cfg env st).state.failures = (breakerGate cfg st).2.failures) := by
  refine ⟨?_, ?_, ?_, ?_⟩
  · intro h
    simp only [step, breakerGate, if_pos h]
  · intro h
    simp only [step, breakerGate, if_neg (Nat.not_le.mpr h)]
  · exact (stepAfterGate_failures cfg env (breakerGate cfg st).2 (breakerGate cfg st).1).1
  · exact (stepAfterGate_failures cfg env (breakerGate cfg st).2 (breakerGate cfg st).1).2

/-- C5 counterexample: calling `step()` before `start()` has
initialized the page raises (the assertion fails) yet leaves the
failure counter unchanged, so a cycle can raise without incrementing
the counter. -/
theorem c5_assert_raises_without_increment :
    (step cfgA envB stateC).raised = some StepErr.assertPage ∧
    (step cfgA envB stateC).state.failures = stateC.failures := by
  exact ⟨rfl, rfl⟩

/-- C5 witness: with threshold 2 already reached, the gate fires and
the cycle runs on the reset counter; and a discovery failure
increments the (post-gate) counter by one. -/
theorem c5_circuit_breaker_witness :
    (step cfgD envA stateD = stepAfterGate cfgD envA { stateD with failures := 0 } true) ∧
    (step cfgD envC stateA).state.failures = (breakerGate cfgD stateA).2.failures + 1 :=
  ⟨(c5_circuit_breaker_amended cfgD envA stateD).1 (by decide),
   (c5_circuit_breaker_amended cfgD envC stateA).2.2.1 "discovery failed" rfl⟩

/-- C2 (amended): a cycle that completes without exception flushes the
full current state to durable storage only when discovery yielded at
least one new event; a cycle with no new events returns early without
persisting, leaving the in-memory checkpoint advance unflushed until a
later non-empty cycle or shutdown; `stop()` always persists. -/
theorem c2_persist_amended (cfg : Cfg) (env : Env) (st : TaskState) :
    (∀ trades st1,
      discoverNewLeaderTrades cfg env (breakerGate cfg st).2 = Except.ok (trades, st1) →
      (step cfg env st).raised = none →
      ((trades ≠ [] → (step cfg env st).persisted = some (step cfg env st).state) ∧
       (trades = [] → (step cfg env st).persisted = none ∧
         (step cfg env st).state = st1))) ∧
    stopPersist st = some st := by
  refine ⟨?_, rfl⟩
  intro trades st1 hdisc hraise
  exact stepAfterGate_persist cfg env (breakerGate cfg st).2 (breakerGate cfg st).1
    trades st1 hdisc hraise

/-- C2 counterexample: a cycle in which the event source returned no
new events completes without exception, advances the checkpoint in
memory (5 to 10), and yet does not write the state to durable storage,
so not every completing cycle ends with a persist. -/
theorem c2_empty_cycle_not_persisted :
    (step cfgA envA stateA).raised = none ∧
    (step cfgA envA stateA).persisted = none ∧
    (step cfgA envA stateA).state.checkpoint = 10 ∧
    stateA.checkpoint = 5 := by
  refine ⟨rfl, rfl, ?_, rfl⟩
  decide

/-- C2 witness: a cycle that discovered one new trade ends by handing
the full current state to `_persist_state`. -/
theorem c2_persist_witness :
    (step cfgA envB stateA).persisted = some (step cfgA envB stateA).state :=
  ((c2_persist_amended cfgA envB stateA).1 [tradeA]
    (advanceCheckpoint stateA 10) rfl rfl).1 (by decide)

/-- C1 (amended): once `start()` has returned successfully, every
terminating execution of the scheduler loop invokes `stop()` exactly
once, whether it exits through cancellation or through an uncaught
failure propagating out of the loop (caught `step()` failures are
swallowed into backoff and do not end the loop); when `start()` itself
raises, `stop()` is never invoked, because `start()` runs before the
`try`/`finally` block. -/
theorem c1_stop_exactly_once_amended (env : SchedEnv) (fuel : Nat)
    (calls : List RunCall) (hstart : env.startFails = false)
    (hterm : schedulerRun env fuel = some calls) :
    calls.count RunCall.stop = 1 := by
  rw [schedulerRun] at hterm
  rw [hstart] at hterm
  simp only [Bool.false_eq_true, if_false] at hterm
  cases hloop : schedulerLoop env 0 fuel with
  | none => rw [hloop] at hterm; cases hterm
  | some cs =>
      rw [hloop] at hterm
      injection hterm with h
      subst h
      simp [List.count_cons, List.count_append,
        schedulerLoop_no_stop env fuel 0 cs hloop]

/-- C1 counterexample: when `start()` raises, the execution terminates
having invoked only `start()` — `stop()` is called zero times, not
once, because `start()` runs outside the `try`/`finally`. -/
theorem c1_start_failure_no_stop :
    schedulerRun schedEnvA 3 = some [RunCall.start] ∧
    ([RunCall.start].count RunCall.stop) = 0 := by
  exact ⟨rfl, rfl⟩

/-- C1 witness: a run whose `step()` raises an uncatchable error at
iteration 1 still invokes `stop()` exactly once on the way out. -/
theorem c1_stop_exactly_once_witness :
    ([RunCall.start, RunCall.stepCall 0, RunCall.stepCall 1,
      RunCall.stop].count RunCall.stop) = 1 :=
  c1_stop_exactly_once_amended schedEnvC 9
    [RunCall.start, RunCall.stepCall 0, RunCall.stepCall 1, RunCall.stop] rfl rfl

/-- C3 (amended): provided the seen-events ledger never overflows
(initial ledger size plus the total number of deliveries stays within
`max_seen_events`, so pruning never evicts), every sequence of
deliveries of one idempotency key across one or many cycles has
exactly one delivery reach risk evaluation, and the key ends recorded
in the ledger whether the decision was allow or deny; if pruning
evicts the key, a later delivery is re-evaluated. -/
theorem c3_idempotence_amended (cfg : Cfg) (cycles : List (List LeaderTrade))
    (st : TaskState) (k : String)
    (hfresh : k ∉ seenKeys st)
    (hcap : seenSize st + cycles.flatten.length ≤ cfg.runtime.max_seen_events)
    (hdeliv : k ∈ cycles.flatten.map LeaderTrade.event_id) :
    (processCycles cfg cycles (st, [], [])).2.2.count k = 1 ∧
    k ∈ seenKeys (processCycles cfg cycles (st, [], [])).1 := by
  rw [processCycles_eq_flatten]
  obtain ⟨h1, h2, _⟩ := processLoop_spec cfg cycles.flatten st [] [] hcap
  constructor
  · rw [h1 k, if_neg hfresh, if_pos hdeliv]
    simp
  · exact (h2 k).mpr (Or.inr hdeliv)

/-- C3 counterexample: with `max_seen_events` 1, the key "evt1" is
evaluated, pruned out of the ledger when a second key arrives, and
evaluated again on redelivery in the next cycle — two deliveries of
the same key reach risk evaluation within one process lifetime. -/
theorem c3_pruning_reevaluates :
    (processCycles cfgC [[tradeA, tradeB], [tradeA]] (stateA, [], [])).2.2 =
      ["evt1", "evtB", "evt1"] ∧
    ((processCycles cfgC [[tradeA, tradeB], [tradeA]] (stateA, [], [])).2.2.count
      "evt1") = 2 := by
  exact ⟨rfl, rfl⟩

/-- C3 witness: with a roomy ledger, delivering the same event in two
consecutive cycles evaluates it exactly once and leaves its key in the
ledger. -/
theorem c3_idempotence_witness :
    (processCycles cfgA [[tradeA], [tradeA]] (stateA, [], [])).2.2.count "evt1" = 1 ∧
    "evt1" ∈ seenKeys (processCycles cfgA [[tradeA], [tradeA]] (stateA, [], [])).1 :=
  c3_idempotence_amended cfgA [[tradeA], [tradeA]] stateA "evt1"
    (by decide) (by decide) (by decide)


end CopyBot
